import Mathlib

/-!
# Verification of the horizon-platform ingestion layer

A shallow embedding of the ingestion core of the repository
(`src/ingestion/`): the date/domain filters, the taxonomy and LLM skill
extraction, the per-source column mappers, row normalizers and streaming
batch loops.  Python text values are embedded as `List Char` (one entry
per code point, mirroring `str`), calendar dates as `Int` proleptic
Gregorian ordinals (`datetime.date.toordinal`, an order isomorphism under
which `timedelta(days = k)` subtraction is integer subtraction), and
`None`-able values as `Option`.  External I/O (pandas CSV parsing,
network calls to the LLM) is abstracted as explicit oracle parameters;
everything downstream of those oracles is translated from the source.
-/

namespace Horizon

/-! ## Python text primitives over `List Char` -/

/-- Python `str.lower()` (ASCII-relevant case folding, per code point). -/
def lowerStr (s : List Char) : List Char := s.map Char.toLower

/-- Python `str.strip()` with no argument strips whitespace. -/
def isPySpace (c : Char) : Bool := c.isWhitespace

/-- Python `str.strip()`: drop whitespace from both ends. -/
def trimStr (s : List Char) : List Char :=
  ((s.dropWhile isPySpace).reverse.dropWhile isPySpace).reverse

/-- Python `" ".join(parts)`. -/
def joinSpace (parts : List (List Char)) : List Char :=
  List.intercalate [' '] parts

/-- Python `needle in hay` substring test. -/
def isSubstrOf (needle hay : List Char) : Bool :=
  hay.tails.any (fun t => needle.isPrefixOf t)

/-- Python single-character membership `c in s`. -/
def charIn (c : Char) (s : List Char) : Bool := s.contains c

/-- Python truthiness of an optional string (`None` and `""` are falsy). -/
def truthyOptStr (o : Option (List Char)) : Bool :=
  match o with
  | none => false
  | some s => !s.isEmpty

/-! ## `src/ingestion/config.py` -/

/-- `CUTOFF_DATE = (datetime.now(timezone.utc) - timedelta(days=3 * 365)).date()`:
the UTC date of process start minus `3 * 365` days, computed once at module
load.  `processStartUtc` is the ordinal of the UTC date at process start;
subtracting a whole-day `timedelta` before `.date()` subtracts ordinals. -/
def CUTOFF_DATE (processStartUtc : Int) : Int := processStartUtc - 3 * 365

/-- `DATA_DOMAIN_KEYWORDS` from `config.py`, in source order. -/
def DATA_DOMAIN_KEYWORDS : List (List Char) :=
  ([ "data engineer", "data engineering", "data science", "data scientist",
     "big data", "machine learning", "ml engineer", "ai ",
     "artificial intelligence", "analytics", "data analyst",
     "business intelligence", "bi ", "etl", "data pipeline",
     "data warehouse", "data lake" ] : List String).map String.data

/-- `DATA_DOMAIN_JOB_TITLES` from `config.py`. -/
def DATA_DOMAIN_JOB_TITLES : List (List Char) :=
  ([ "Data Engineer", "Data Scientist", "Data Analyst", "Analytics Engineer",
     "Business Analyst", "Machine Learning Engineer" ] : List String).map String.data

/-! ## `src/ingestion/filters.py` -/

/-- `last_3_years(posted_date)`: `True` if `posted_date` is on or after
`CUTOFF_DATE`; a missing date gives `False`.  The cutoff is the module-load
constant, threaded here as the `processStartUtc` parameter (the function
takes no per-call clock). -/
def last_3_years (processStartUtc : Int) (posted_date : Option Int) : Bool :=
  match posted_date with
  | none => false
  | some d => decide (CUTOFF_DATE processStartUtc ≤ d)

/-- `_combined_text(title, description, skills)`: single searchable string,
skipping falsy parts, space-joined, lowercased. -/
def _combined_text (title description : Option (List Char))
    (skills : Option (List (List Char))) : List Char :=
  let parts : List (List Char) :=
    (match title with
     | some t => if t.isEmpty then [] else [t]
     | none => []) ++
    (match description with
     | some d => if d.isEmpty then [] else [d]
     | none => []) ++
    (match skills with
     | some sk => if sk.isEmpty then [] else [joinSpace sk]
     | none => [])
  lowerStr (joinSpace parts)

/-- `data_domain_only(...)`: `True` when `job_title_short` is truthy and its
trimmed value is one of `DATA_DOMAIN_JOB_TITLES`; otherwise keyword search
over the combined text (empty combined text gives `False`). -/
def data_domain_only (title description : Option (List Char))
    (skills : Option (List (List Char)))
    (job_title_short : Option (List Char)) : Bool :=
  let labelHit : Bool :=
    match job_title_short with
    | some s =>
      if (trimStr s).isEmpty then false
      else DATA_DOMAIN_JOB_TITLES.contains (trimStr s)
    | none => false
  if labelHit then true
  else
    let text := _combined_text title description skills
    if text.isEmpty then false
    else DATA_DOMAIN_KEYWORDS.any (fun kw => isSubstrOf (lowerStr kw) text)

/-! ## `src/ingestion/skills_extraction.py`: taxonomy strategy -/

/-- A regex word character (`\w` over the ASCII range): letters, digits, `_`. -/
def isWordChar (c : Char) : Bool := c.isAlphanum || c == '_'

/-- `\b` holds before the match when there is no previous character or it is
not a word character (all taxonomy phrases start with a word character). -/
def boundaryBefore : Option Char → Bool
  | none => true
  | some c => !isWordChar c

/-- `\b` holds after the match when the text ends there or the next character
is not a word character (all taxonomy phrases end with a word character). -/
def boundaryAfter : List Char → Bool
  | [] => true
  | c :: _ => !isWordChar c

/-- One candidate position of `\b<phrase>\b`: the phrase is a prefix of the
remaining text with word boundaries on both sides. -/
def matchesHere (phrase : List Char) (prev : Option Char) (t : List Char) : Bool :=
  boundaryBefore prev && phrase.isPrefixOf t && boundaryAfter (t.drop phrase.length)

def wbSearchAux (phrase : List Char) : Option Char → List Char → Bool
  | prev, [] => matchesHere phrase prev []
  | prev, c :: rest => matchesHere phrase prev (c :: rest) || wbSearchAux phrase (some c) rest

/-- `_make_pattern(skill).search(text)`: the pattern is
`rf"\b{re.escape(skill)}\b"` with `re.IGNORECASE` (both branches of
`_make_pattern` build the same pattern); phrases and text are already
lowercase where this is used, so the search is a plain word-boundary scan. -/
def regexSearch (phrase text : List Char) : Bool := wbSearchAux phrase none text

/-- `DATA_ENGINEER_SKILLS` from `config.py`, in source order. -/
def DATA_ENGINEER_SKILLS : List (List Char) :=
  ([ "apache spark", "apache kafka", "apache airflow", "google cloud",
     "google cloud platform", "machine learning", "data pipeline",
     "data warehouse", "data lake", "data modeling", "etl", "elt", "python",
     "sql", "spark", "pyspark", "kafka", "airflow", "aws", "gcp", "azure",
     "snowflake", "redshift", "bigquery", "databricks", "dbt", "terraform",
     "docker", "kubernetes", "k8s", "java", "scala", "pandas", "numpy",
     "tableau", "looker", "power bi", "dbt core", "fivetran", "talend",
     "informatica", "postgresql", "postgres", "mysql", "mongodb", "redis",
     "elasticsearch", "hadoop", "hive", "presto", "trino", "beam",
     "dataflow", "cloud storage", "pub/sub", "bigtable", "firestore",
     "dataform", "dbt cloud", "great expectations", "dagster",
     "prefect" ] : List String).map String.data

/-- `DATA_ENGINEER_SKILL_ALIASES` from `config.py`: lowercase phrase to
canonical display name. -/
def DATA_ENGINEER_SKILL_ALIASES : List (List Char × String) :=
  ([ ("pyspark", "Spark"), ("apache spark", "Spark"), ("spark", "Spark"),
     ("apache kafka", "Kafka"), ("kafka", "Kafka"),
     ("apache airflow", "Airflow"), ("airflow", "Airflow"),
     ("google cloud", "GCP"), ("google cloud platform", "GCP"),
     ("gcp", "GCP"), ("aws", "AWS"), ("azure", "Azure"),
     ("snowflake", "Snowflake"), ("redshift", "Redshift"),
     ("bigquery", "BigQuery"), ("databricks", "Databricks"), ("dbt", "dbt"),
     ("dbt core", "dbt"), ("dbt cloud", "dbt"), ("terraform", "Terraform"),
     ("docker", "Docker"), ("kubernetes", "Kubernetes"),
     ("k8s", "Kubernetes"), ("python", "Python"), ("sql", "SQL"),
     ("java", "Java"), ("scala", "Scala"), ("etl", "ETL"), ("elt", "ELT"),
     ("machine learning", "Machine Learning"),
     ("data pipeline", "Data Pipeline"), ("data warehouse", "Data Warehouse"),
     ("data lake", "Data Lake"), ("data modeling", "Data Modeling"),
     ("pandas", "Pandas"), ("numpy", "NumPy"), ("tableau", "Tableau"),
     ("looker", "Looker"), ("power bi", "Power BI"),
     ("postgresql", "PostgreSQL"), ("postgres", "PostgreSQL"),
     ("mysql", "MySQL"), ("mongodb", "MongoDB"), ("redis", "Redis"),
     ("elasticsearch", "Elasticsearch"), ("hadoop", "Hadoop"),
     ("hive", "Hive"), ("presto", "Presto"), ("trino", "Trino"),
     ("beam", "Beam"), ("dataflow", "Dataflow"), ("fivetran", "Fivetran"),
     ("talend", "Talend"), ("informatica", "Informatica"),
     ("great expectations", "Great Expectations"), ("dagster", "Dagster"),
     ("prefect", "Prefect") ] : List (String × String)).map
    (fun p => (p.1.data, p.2))

/-- `DATA_ENGINEER_SKILL_ALIASES.get(key)` (dict lookup). -/
def aliasLookup (k : List Char) : Option String :=
  (DATA_ENGINEER_SKILL_ALIASES.find? (fun p => p.1 == k)).map Prod.snd

/-- `str.title()`: uppercase an alphabetic character that does not follow an
alphabetic character, lowercase the rest (ASCII-relevant behaviour). -/
def titleCaseAux : Bool → List Char → List Char
  | _, [] => []
  | prevAlpha, c :: cs =>
    (if c.isAlpha then (if prevAlpha then c.toLower else c.toUpper) else c) ::
      titleCaseAux c.isAlpha cs

def titleCase (s : List Char) : String := String.mk (titleCaseAux false s)

/-- `_SKILL_PATTERNS`, built at module load: each skill paired with its
canonical name, `DATA_ENGINEER_SKILL_ALIASES.get(skill.lower(), skill.title())`. -/
def _SKILL_PATTERNS : List (List Char × String) :=
  DATA_ENGINEER_SKILLS.map
    (fun sk => (sk, (aliasLookup (lowerStr sk)).getD (titleCase sk)))

/-- Strict code-point order on characters (what Python `<` compares). -/
def charLtB (a b : Char) : Bool := a.toNat < b.toNat

/-- Strict lexicographic code-point order on strings as character lists:
Python's `<` on `str`, used by `sorted`. -/
def charListLtB : List Char → List Char → Bool
  | [], [] => false
  | [], _ :: _ => true
  | _ :: _, [] => false
  | a :: as, b :: bs =>
    if charLtB a b then true
    else if charLtB b a then false
    else charListLtB as bs

def strLtB (a b : String) : Bool := charListLtB a.data b.data

/-- Insert into a strictly sorted, duplicate-free list, keeping it so. -/
def insertSortedDedup (a : String) : List String → List String
  | [] => [a]
  | b :: bs =>
    if a = b then b :: bs
    else if strLtB a b then a :: b :: bs
    else b :: insertSortedDedup a bs

/-- Python `sorted(set(l))` for strings (Python sorts by code point order,
which is `strLtB`). -/
def pySortedSet (l : List String) : List String :=
  l.foldl (fun acc a => insertSortedDedup a acc) []

/-- `extract_skills_taxonomy(title, description)`: join the stripped, truthy
parts, lowercase, collect the canonical name of every matching pattern into a
set and return it sorted. -/
def extract_skills_taxonomy (title description : Option (List Char)) : List String :=
  let text_parts : List (List Char) :=
    (match title with
     | some t => if (trimStr t).isEmpty then [] else [trimStr t]
     | none => []) ++
    (match description with
     | some d => if (trimStr d).isEmpty then [] else [trimStr d]
     | none => [])
  if text_parts.isEmpty then []
  else
    pySortedSet
      ((_SKILL_PATTERNS.filter
          (fun p => regexSearch p.1 (lowerStr (joinSpace text_parts)))).map Prod.snd)

/-! ## `src/ingestion/skills_extraction.py`: LLM strategy

The network call to the model is abstracted as an oracle returning the
JSON value parsed from the model's text, `none` standing for an exception,
an empty response, or unparseable output (the code maps all three to the
same fallback).  Everything after parsing is translated from the source. -/

/-- A parsed JSON value, as produced by `json.loads`. -/
inductive Json where
  | jNull
  | jBool (b : Bool)
  | jNum (n : Int)
  | jStr (s : List Char)
  | jArr (xs : List Json)

/-- Python `str()` of a scalar JSON value; a nested array renders with
brackets (only its truthiness and strippedness matter downstream). -/
def pyStrJson : Json → List Char
  | .jNull => "None".data
  | .jBool true => "True".data
  | .jBool false => "False".data
  | .jNum n =>
    if n < 0 then '-' :: Nat.toDigits 10 n.natAbs else Nat.toDigits 10 n.natAbs
  | .jStr s => s
  | .jArr _ => "[...]".data

/-- Python truthiness of a JSON value. -/
def truthyJson : Json → Bool
  | .jNull => false
  | .jBool b => b
  | .jNum n => n != 0
  | .jStr s => !s.isEmpty
  | .jArr xs => !xs.isEmpty

/-- `[str(x).strip() for x in xs if x and str(x).strip()]`. -/
def cleanStrList (xs : List Json) : List (List Char) :=
  (xs.filter (fun x => truthyJson x && !(trimStr (pyStrJson x)).isEmpty)).map
    (fun x => trimStr (pyStrJson x))

/-- Python `a or b` for optional strings (`None` and `""` are falsy). -/
def pyOrStrOpt (a b : Option (List Char)) : Option (List Char) :=
  match a with
  | some s => if s.isEmpty then b else some s
  | none => b

/-- `api_key or os.environ.get("GOOGLE_API_KEY") or os.environ.get("GEMINI_API_KEY")`. -/
def resolveApiKey (argKey envGoogle envGemini : Option (List Char)) :
    Option (List Char) :=
  pyOrStrOpt (pyOrStrOpt argKey envGoogle) envGemini

/-- `_parse_skills_json` downstream of `json.loads`: a JSON list keeps its
truthy, non-blank entries stringified and stripped; anything else is `[]`. -/
def parseSkillsJsonVal : Json → List (List Char)
  | .jArr xs => cleanStrList xs
  | _ => []

/-- `extract_skills_llm(title, description, api_key=...)`: with no truthy API
key resolved, return `[]` without calling the model; otherwise the oracle
response (already parsed; `none` = exception/empty/unparseable) goes through
`_parse_skills_json`. -/
def extract_skills_llm (title description : Option (List Char))
    (argKey envGoogle envGemini : Option (List Char))
    (respond : Option (List Char) → Option (List Char) → Option Json) :
    List (List Char) :=
  let apiKey := resolveApiKey argKey envGoogle envGemini
  if !truthyOptStr apiKey then []
  else
    match respond title description with
    | none => []
    | some j => parseSkillsJsonVal j

/-- `range(0, len(rows), batch_size)` slicing: each step takes one chunk of
at most `n` rows off the front (the code always consumes at least one row per
step; `batch_size` is 10 by default and positive in use).  The `fuel`
argument, instantiated with the list length, only makes the recursion
structural. -/
def chunksOfFuel {α : Type} : Nat → Nat → List α → List (List α)
  | 0, _, _ => []
  | _ + 1, _, [] => []
  | fuel + 1, n, x :: xs => (x :: xs.take (n - 1)) :: chunksOfFuel fuel n (xs.drop (n - 1))

def chunksOf {α : Type} (n : Nat) (l : List α) : List (List α) :=
  chunksOfFuel l.length n l

/-- The per-batch positional assignment of `extract_skills_llm_batch`: when
the parsed value is an array at least as long as the batch, record `k` gets
its entry's cleaned strings if that entry is itself an array, else `[]`;
otherwise every record of the batch gets `[]`. -/
def assignBatchResults (j : Json) (n : Nat) : List (List (List Char)) :=
  match j with
  | .jArr xs =>
    if n ≤ xs.length then
      (List.range n).map (fun k =>
        match xs[k]? with
        | some (Json.jArr ys) => cleanStrList ys
        | _ => [])
    else List.replicate n []
  | _ => List.replicate n []

/-- `extract_skills_llm_batch(rows, api_key=..., batch_size=...)`: no truthy
key gives one `[]` per row; otherwise the rows are processed in chunks, each
chunk's oracle response (`none` = exception or empty response) assigned
positionally. -/
def extract_skills_llm_batch
    (rows : List (Option (List Char) × Option (List Char)))
    (argKey envGoogle envGemini : Option (List Char))
    (respondBatch : List (Option (List Char) × Option (List Char)) → Option Json)
    (batch_size : Nat) : List (List (List Char)) :=
  let apiKey := resolveApiKey argKey envGoogle envGemini
  if !truthyOptStr apiKey then List.replicate rows.length []
  else
    (chunksOf batch_size rows).flatMap (fun batch =>
      match respondBatch batch with
      | none => List.replicate batch.length []
      | some j => assignBatchResults j batch.length)

/-- The model's positional entry for record `k`: present only when the parsed
response is an array long enough. -/
def positionalEntry (j : Json) (k : Nat) : Option Json :=
  match j with
  | .jArr xs => xs[k]?
  | _ => none

def entryIsArr : Option Json → Bool
  | some (Json.jArr _) => true
  | _ => false

/-! ## `src/ingestion/schema.py` -/

/-- `RawJobRow`: the canonical raw job posting row all sources map into.
`ingested_at = datetime.now()` is threaded as the `now` parameter of each
normalizer. -/
structure RawJobRow where
  source_id : String
  source_name : String
  job_title : Option (List Char)
  job_description : Option (List Char)
  company_name : Option (List Char)
  location : Option (List Char)
  posted_date : Option Int
  job_url : Option (List Char)
  skills : Option (List (List Char))
  salary_info : Option (List Char)
  ingested_at : Int
deriving DecidableEq

/-- Association-list reading of a Python dict built by successive fresh-key
insertions: the value at the first matching key. -/
def lookupCol (m : List (List Char × String)) (c : List Char) : Option String :=
  (m.find? (fun p => p.1 == c)).map Prod.snd

/-- Python `filter(None, l)` over optional strings: keep the truthy values. -/
def pyFilterTruthy (l : List (Option (List Char))) : List (List Char) :=
  l.filterMap (fun o =>
    match o with
    | some s => if s.isEmpty then none else some s
    | none => none)

/-- Python `", ".join(parts)`. -/
def joinCommaSpace (parts : List (List Char)) : List Char :=
  List.intercalate ", ".data parts

/-! ## `src/ingestion/sources/kaggle_data_engineer_2023.py` -/

namespace KaggleDataEngineer2023

def SOURCE_ID : String := "kaggle_data_engineer_2023"

def SOURCE_NAME : String := "Kaggle Data Engineer Job Postings 2023"

/-- `DEFAULT_POSTED_DATE = date(2023, 4, 1)`, ordinal 738611 (the dataset has
no posting date; it is an April 2023 dump). -/
def DEFAULT_POSTED_DATE : Int := 738611

/-- `_EXACT_COLUMN_MAP`: explicit mapping for the known 117-column layout. -/
def _EXACT_COLUMN_MAP : List (List Char × String) :=
  ([ ("Job_details", "job_title"), ("Job_details.1", "job_description"),
     ("Company_info", "company_name"), ("Job_details.4", "location_city"),
     ("Job_details.5", "location_state"), ("Job_details.6", "location_country"),
     ("Salary.2", "salary_avg"), ("Salary.3", "salary_currency")
   ] : List (String × String)).map (fun p => (p.1.data, p.2))

/-- `_NORM_TO_CANON`: normalized column name to canonical, for other CSV
variants. -/
def _NORM_TO_CANON : List (List Char × String) :=
  ([ ("job_title", "job_title"), ("title", "job_title"),
     ("description", "job_description"), ("desc", "job_description"),
     ("location", "location"), ("company_name", "company_name"),
     ("company", "company_name"), ("salary", "salary_info")
   ] : List (String × String)).map (fun p => (p.1.data, p.2))

/-- `_norm_col`: strip, lowercase, then turn spaces and hyphens into
underscores (two single-character `str.replace` calls). -/
def _norm_col (s : List Char) : List Char :=
  (lowerStr (trimStr s)).map
    (fun c => if c == ' ' then '_' else if c == '-' then '_' else c)

/-- `_normalize_columns(df)`: first collect every `_EXACT_COLUMN_MAP` entry
whose CSV column is present; if that found anything return it, else fall back
to `_NORM_TO_CANON` lookups on normalized names. -/
def _normalize_columns (cols : List (List Char)) : List (List Char × String) :=
  let exact := _EXACT_COLUMN_MAP.filter (fun p => cols.contains p.1)
  if exact.isEmpty then
    cols.filterMap (fun c => (lookupCol _NORM_TO_CANON (_norm_col c)).map (fun canon => (c, canon)))
  else exact

/-- The substring fallback rules of `stream_kaggle_data_engineer_2023`, in
source order: each canonical slot with its substring test on the normalized
column name. -/
def substringRules : List (String × (List Char → Bool)) :=
  [ ("job_title", fun n => isSubstrOf "title".data n),
    ("job_description", fun n => isSubstrOf "description".data n || isSubstrOf "desc".data n),
    ("location", fun n => isSubstrOf "location".data n || isSubstrOf "loc".data n),
    ("company_name", fun n => isSubstrOf "company".data n),
    ("salary_info", fun n => isSubstrOf "salary".data n) ]

/-- The `if`/`elif` chain of the fallback loop: the first rule whose slot is
not yet in `vals` and whose substring test matches the normalized name. -/
def applyRules (vals : List String) (n : List Char) : Option String :=
  (substringRules.find? (fun r => !vals.contains r.1 && r.2 n)).map Prod.fst

/-- The fallback loop of `stream_kaggle_data_engineer_2023` over the chunk's
columns: skip columns already mapped, otherwise apply the first enabled rule,
recording the claimed slot in `vals`. -/
def inferLoop : List (List Char) → List (List Char × String) → List String →
    List (List Char × String)
  | [], m, _ => m
  | c :: cs, m, vals =>
    if (m.find? (fun p => p.1 == c)).isSome then inferLoop cs m vals
    else
      match applyRules vals (_norm_col c) with
      | some slot => inferLoop cs (m ++ [(c, slot)]) (vals ++ [slot])
      | none => inferLoop cs m vals

/-- The column map the stream actually uses for a chunk with columns `cols`:
`_normalize_columns` followed by the substring fallback loop seeded with the
already-assigned canonical values. -/
def streamColumnMap (cols : List (List Char)) : List (List Char × String) :=
  let m := _normalize_columns cols
  inferLoop cols m (m.map Prod.snd)

/-- The mutable locals of `_row_to_canonical`. -/
structure Fields where
  title : Option (List Char) := none
  desc : Option (List Char) := none
  company : Option (List Char) := none
  location_city : Option (List Char) := none
  location_state : Option (List Char) := none
  location_country : Option (List Char) := none
  location_single : Option (List Char) := none
  salary_avg : Option (List Char) := none
  salary_currency : Option (List Char) := none

/-- The `if`/`elif` chain assigning one extracted cell to its local. -/
def assignField (f : Fields) (canon : String) (s : List Char) : Fields :=
  if canon == "job_title" then { f with title := some s }
  else if canon == "job_description" then { f with desc := some s }
  else if canon == "company_name" then { f with company := some s }
  else if canon == "location" then { f with location_single := some s }
  else if canon == "location_city" then { f with location_city := some s }
  else if canon == "location_state" then { f with location_state := some s }
  else if canon == "location_country" then { f with location_country := some s }
  else if canon == "salary_info" then { f with salary_avg := some s }
  else if canon == "salary_avg" then { f with salary_avg := some s }
  else if canon == "salary_currency" then { f with salary_currency := some s }
  else f

/-- The extraction loop over `col_map.items()`: skip missing/NaN cells
(`row : _ → Option _` with `none` for both) and blank strings, else assign
the stripped value. -/
def collectFields (row : List Char → Option (List Char))
    (col_map : List (List Char × String)) : Fields :=
  col_map.foldl
    (fun f p =>
      match row p.1 with
      | none => f
      | some v =>
        let s := trimStr v
        if s.isEmpty then f else assignField f p.2 s)
    {}

/-- `_row_to_canonical(row, col_map)`: the posted date is always the fixed
default; if it fails `last_3_years` the row is rejected; otherwise the
canonical row is built with NO domain-filter call (the source comments that
this dataset is 100% data-engineer postings and skips the filter). -/
def _row_to_canonical (processStartUtc now : Int)
    (row : List Char → Option (List Char))
    (col_map : List (List Char × String)) : Option RawJobRow :=
  let posted := DEFAULT_POSTED_DATE
  if !(last_3_years processStartUtc (some posted)) then none
  else
    let f := collectFields row col_map
    let joined := joinCommaSpace
      (pyFilterTruthy [f.location_city, f.location_state, f.location_country])
    let location := pyOrStrOpt f.location_single
      (if joined.isEmpty then none else some joined)
    let salary_info :=
      if truthyOptStr f.salary_avg || truthyOptStr f.salary_currency then
        some (joinSpace (pyFilterTruthy [f.salary_avg, f.salary_currency]))
      else none
    some { source_id := SOURCE_ID, source_name := SOURCE_NAME,
           job_title := f.title, job_description := f.desc,
           company_name := f.company, location := location,
           posted_date := some posted, job_url := none, skills := none,
           salary_info := salary_info, ingested_at := now }

end KaggleDataEngineer2023

/-! ## Shared helpers for the remaining sources -/

/-- `civil_from_days` on a Python date ordinal: the (year, month, day)
triple of the proleptic-Gregorian date with that ordinal. -/
def ordinalToYmd (o : Int) : Int × Int × Int :=
  let z := o - 719163 + 719468
  let era := Int.fdiv z 146097
  let doe := z - era * 146097
  let yoe := Int.fdiv (doe - Int.fdiv doe 1460 + Int.fdiv doe 36524 - Int.fdiv doe 146096) 365
  let y := yoe + era * 400
  let doy := doe - (365 * yoe + Int.fdiv yoe 4 - Int.fdiv yoe 100)
  let mp := Int.fdiv (5 * doy + 2) 153
  let d := doy - Int.fdiv (153 * mp + 2) 5 + 1
  let m := mp + (if mp < 10 then 3 else -9)
  (y + (if m ≤ 2 then 1 else 0), m, d)

def padDigits (w : Nat) (n : Nat) : List Char :=
  let ds := Nat.toDigits 10 n
  List.replicate (w - ds.length) '0' ++ ds

/-- `str()` of a Python date: `"YYYY-MM-DD"`. -/
def isoOfOrdinal (o : Int) : List Char :=
  padDigits 4 (ordinalToYmd o).1.toNat ++
    '-' :: padDigits 2 (ordinalToYmd o).2.1.toNat ++
      '-' :: padDigits 2 (ordinalToYmd o).2.2.toNat

/-- Python `str.split(sep)` generalized to a character predicate: keeps empty
parts (`"".split` gives one empty part). -/
def splitOnPred (p : Char → Bool) : List Char → List (List Char)
  | [] => [[]]
  | c :: cs =>
    if p c then [] :: splitOnPred p cs
    else
      match splitOnPred p cs with
      | [] => [[c]]
      | q :: qs => (c :: q) :: qs

/-- Python `str.split("|")`. -/
def splitOnChar (sep : Char) : List Char → List (List Char) :=
  splitOnPred (fun c => c == sep)

/-- `val.replace(";", "|").replace(",", "|")` character by character. -/
def toPipe (c : Char) : Char :=
  if c == ';' then '|' else if c == ',' then '|' else c

/-- The three skill delimiters `;`, `|`, `,`. -/
def isSkillDelim (c : Char) : Bool := c == ';' || c == '|' || c == ','

/-- One step of the batch-accumulation loop shared by every stream: append
the canonical row to the pending batch; when it reaches `batch_size`, yield
it (move it to the finished list) and start a fresh one. -/
def batchStep {α : Type} (batch_size : Nat)
    (acc : List (List α) × List α) (r : α) : List (List α) × List α :=
  let b := acc.2 ++ [r]
  if batch_size ≤ b.length then (acc.1 ++ [b], []) else (acc.1, b)

/-- The whole batch loop: fold the rows through `batchStep` and yield the
final partial batch if non-empty. -/
def batchLoop {α : Type} (batch_size : Nat) (rows : List α) : List (List α) :=
  let st := rows.foldl (batchStep batch_size) ([], [])
  if st.2.isEmpty then st.1 else st.1 ++ [st.2]

/-! ## `src/ingestion/sources/kaggle_linkedin_jobs_skills_2024.py` -/

namespace KaggleLinkedin2024

def SOURCE_ID : String := "kaggle_linkedin_jobs_skills_2024"

def SOURCE_NAME : String := "Kaggle 1.3M LinkedIn Jobs & Skills 2024"

/-- `DEFAULT_POSTED_DATE = date(2024, 1, 1)`, ordinal 738886. -/
def DEFAULT_POSTED_DATE : Int := 738886

/-- A pandas cell as `row.get(col)` sees it: an absent column gives
`vMissing` (Python `None`), a float NaN cell `vNaN`; CSV cells are strings,
with date/datetime/list cells kept for the defensive branches of
`_parse_date`/`_skills_to_list` (time of day is not modelled). -/
inductive CellVal where
  | vMissing
  | vNaN
  | vStr (s : List Char)
  | vDate (d : Int)
  | vDatetime (d : Int)
  | vList (xs : List (List Char))

/-- `pd.isna(v)` for scalar cells. -/
def pd_isna : CellVal → Bool
  | .vMissing => true
  | .vNaN => true
  | _ => false

/-- Python `str(v)` on a cell. -/
def pyStr : CellVal → List Char
  | .vMissing => "None".data
  | .vNaN => "nan".data
  | .vStr s => s
  | .vDate d => isoOfOrdinal d
  | .vDatetime d => isoOfOrdinal d ++ " 00:00:00".data
  | .vList xs =>
    '[' :: List.intercalate ", ".data
      (xs.map (fun x => Char.ofNat 39 :: x ++ [Char.ofNat 39])) ++ [']']

/-- `_infer_column_map(df)`: first matching substring rule per column of the
lowercased, stripped name, in source order. -/
def _infer_column_map (cols : List (List Char)) : List (List Char × String) :=
  cols.filterMap (fun c =>
    let s := trimStr (lowerStr c)
    if isSubstrOf "title".data s || isSubstrOf "job_title".data s ||
        s == "job".data then some (c, "job_title")
    else if isSubstrOf "description".data s || isSubstrOf "desc".data s ||
        isSubstrOf "content".data s then some (c, "job_description")
    else if isSubstrOf "company".data s then some (c, "company_name")
    else if isSubstrOf "location".data s || isSubstrOf "loc".data s ||
        isSubstrOf "place".data s then some (c, "location")
    else if isSubstrOf "salary".data s || isSubstrOf "pay".data s then
      some (c, "salary_info")
    else if isSubstrOf "posted".data s || isSubstrOf "date".data s ||
        isSubstrOf "time".data s then some (c, "posted_date")
    else if isSubstrOf "url".data s || isSubstrOf "link".data s then
      some (c, "job_url")
    else if isSubstrOf "skill".data s then some (c, "skills")
    else none)

/-- `_parse_date(val)`: `None`/NaN give `None`, date and datetime cells their
date; strings (and lists) go through `pd.to_datetime`, abstracted as the
`pdParse` oracle (`none` = unparseable). -/
def _parse_date (pdParse : CellVal → Option Int) : CellVal → Option Int
  | .vMissing => none
  | .vNaN => none
  | .vDate d => some d
  | .vDatetime d => some d
  | v => pdParse v

/-- `_skills_to_list(val)`: a list is kept with elements stringified; a
string with a `;`/`|`/`,` delimiter is rewritten to `|`s and split, parts
stripped and falsy parts dropped; a non-blank string is a singleton; blank
strings, `None`, NaN and other cells give `None`. -/
def _skills_to_list (v : CellVal) : Option (List (List Char)) :=
  match v with
  | .vMissing => none
  | .vNaN => none
  | .vList xs => some xs
  | .vStr s =>
    if charIn ';' s || charIn '|' s || charIn ',' s then
      some (((splitOnChar '|' (s.map toPipe)).filter
          (fun x => !x.isEmpty && !(trimStr x).isEmpty)).map trimStr)
    else if (trimStr s).isEmpty then none else some [trimStr s]
  | _ => none

/-- The first loop of `_row_to_canonical`: resolve the posted date from the
first `posted_date` column (`break`), falling back to the default when the
column is absent or unparseable. -/
def resolvePosted (pdParse : CellVal → Option Int)
    (col_map : List (List Char × String)) (row : List Char → CellVal) : Int :=
  match col_map.find? (fun p => p.2 == "posted_date") with
  | none => DEFAULT_POSTED_DATE
  | some p =>
    match _parse_date pdParse (row p.1) with
    | some v => v
    | none => DEFAULT_POSTED_DATE

/-- The title/description/skills locals of `_row_to_canonical`. -/
structure TDS where
  title : Option (List Char) := none
  desc : Option (List Char) := none
  skills : Option (List (List Char)) := none

/-- The second loop of `_row_to_canonical`: extract title (`or None`),
description (`or None`) and skills, skipping NaN cells, later columns
overwriting earlier ones. -/
def collectTDS (row : List Char → CellVal)
    (col_map : List (List Char × String)) : TDS :=
  col_map.foldl
    (fun f p =>
      let v := row p.1
      if pd_isna v then f
      else if p.2 == "job_title" then
        { f with title := (let s := trimStr (pyStr v)
                           if s.isEmpty then none else some s) }
      else if p.2 == "job_description" then
        { f with desc := (let s := trimStr (pyStr v)
                          if s.isEmpty then none else some s) }
      else if p.2 == "skills" then { f with skills := _skills_to_list v }
      else f)
    {}

/-- The company/location/salary/url locals of `_row_to_canonical`. -/
structure CLSU where
  company : Option (List Char) := none
  location : Option (List Char) := none
  salary_info : Option (List Char) := none
  job_url : Option (List Char) := none

/-- The third loop of `_row_to_canonical` (plain `str(v).strip()`, no
`or None`). -/
def collectCLSU (row : List Char → CellVal)
    (col_map : List (List Char × String)) : CLSU :=
  col_map.foldl
    (fun f p =>
      let v := row p.1
      if pd_isna v then f
      else if p.2 == "company_name" then { f with company := some (trimStr (pyStr v)) }
      else if p.2 == "location" then { f with location := some (trimStr (pyStr v)) }
      else if p.2 == "salary_info" then { f with salary_info := some (trimStr (pyStr v)) }
      else if p.2 == "job_url" then { f with job_url := some (trimStr (pyStr v)) }
      else f)
    {}

/-- `_row_to_canonical(row, col_map)`: resolve the posted date, reject on the
recency filter, extract title/description/skills, reject on the domain
filter, then extract the descriptive fields and build the canonical row. -/
def _row_to_canonical (processStartUtc now : Int)
    (pdParse : CellVal → Option Int) (row : List Char → CellVal)
    (col_map : List (List Char × String)) : Option RawJobRow :=
  let posted := resolvePosted pdParse col_map row
  if !(last_3_years processStartUtc (some posted)) then none
  else
    let f := collectTDS row col_map
    if !(data_domain_only f.title f.desc f.skills none) then none
    else
      let g := collectCLSU row col_map
      some { source_id := SOURCE_ID, source_name := SOURCE_NAME,
             job_title := f.title, job_description := f.desc,
             company_name := g.company, location := g.location,
             posted_date := some posted, job_url := g.job_url,
             skills := f.skills, salary_info := g.salary_info,
             ingested_at := now }

/-- `stream_kaggle_linkedin_jobs_skills_2024`, post I/O: the CSV's rows in
order (chunking does not change the row sequence), the column map inferred
once from the header, rejected rows skipped, accepted rows batched. -/
def stream_kaggle_linkedin_jobs_skills_2024 (processStartUtc now : Int)
    (pdParse : CellVal → Option Int) (cols : List (List Char))
    (rows : List (List Char → CellVal)) (batch_size : Nat) :
    List (List RawJobRow) :=
  batchLoop batch_size
    (rows.filterMap
      (fun row => _row_to_canonical processStartUtc now pdParse row
        (_infer_column_map cols)))

end KaggleLinkedin2024

/-! ## `src/ingestion/sources/huggingface_data_jobs.py` -/

namespace HuggingFaceDataJobs

def SOURCE_ID : String := "huggingface_data_jobs"

def SOURCE_NAME : String := "Hugging Face data_jobs"

/-- The `job_posted_date` cell of a Hugging Face record (the dataset stores
strings or datetimes; `vNone` is Python `None`). -/
inductive HFCell where
  | vNone
  | vStr (s : List Char)
  | vDate (d : Int)
  | vDatetime (d : Int)

/-- `_parse_date(value)`: `None` gives `None`; date and datetime cells their
date; strings go through `datetime.fromisoformat` with `"Z"` rewritten to
`"+00:00"`, abstracted as the `isoParse` oracle (`none` = `ValueError`). -/
def _parse_date (isoParse : List Char → Option Int) : HFCell → Option Int
  | .vNone => none
  | .vDate d => some d
  | .vDatetime d => some d
  | .vStr s => isoParse s

/-- The `job_skills` cell: `None`, a list of strings, or one string. -/
inductive HFSkills where
  | vNone
  | vList (xs : List (List Char))
  | vStr (s : List Char)

/-- `_skills_list(value)`: a list keeps its elements stringified, a string
becomes a singleton (unstripped), `None` stays `None`. -/
def _skills_list : HFSkills → Option (List (List Char))
  | .vNone => none
  | .vList xs => some xs
  | .vStr s => some [s]

/-- One record of `lukebarousse/data_jobs`, restricted to the keys the
reader touches (`salary_year_avg` is carried already stringified, matching
`str(row.get("salary_year_avg"))` on a present value). -/
structure HFRow where
  job_posted_date : HFCell
  job_title : Option (List Char)
  job_skills : HFSkills
  job_title_short : Option (List Char)
  company_name : Option (List Char)
  job_location : Option (List Char)
  salary_year_avg : Option (List Char)

/-- `_row_to_canonical(row)`: parse the posted date, reject on the recency
filter, normalize skills, reject on the domain filter (with
`job_title_short`), then build the canonical row (no description column). -/
def _row_to_canonical (processStartUtc now : Int)
    (isoParse : List Char → Option Int) (r : HFRow) : Option RawJobRow :=
  let posted := _parse_date isoParse r.job_posted_date
  if !(last_3_years processStartUtc posted) then none
  else
    let skills := _skills_list r.job_skills
    if !(data_domain_only r.job_title none skills r.job_title_short) then none
    else
      some { source_id := SOURCE_ID, source_name := SOURCE_NAME,
             job_title := r.job_title, job_description := none,
             company_name := r.company_name, location := r.job_location,
             posted_date := posted, job_url := none, skills := skills,
             salary_info := r.salary_year_avg, ingested_at := now }

/-- `stream_huggingface_data_jobs`, post I/O: the dataset's records in order,
rejected rows skipped, accepted rows batched. -/
def stream_huggingface_data_jobs (processStartUtc now : Int)
    (isoParse : List Char → Option Int) (rows : List HFRow)
    (batch_size : Nat) : List (List RawJobRow) :=
  batchLoop batch_size
    (rows.filterMap (_row_to_canonical processStartUtc now isoParse))

end HuggingFaceDataJobs

namespace KaggleDataEngineer2023

/-- `stream_kaggle_data_engineer_2023`, post I/O: the CSV's rows in order,
the column map built once from the header (exact map plus substring
fallback), rejected rows skipped, accepted rows batched. -/
def stream_kaggle_data_engineer_2023 (processStartUtc now : Int)
    (cols : List (List Char)) (rows : List (List Char → Option (List Char)))
    (batch_size : Nat) : List (List RawJobRow) :=
  batchLoop batch_size
    (rows.filterMap
      (fun row => _row_to_canonical processStartUtc now row (streamColumnMap cols)))

end KaggleDataEngineer2023

/-- Sample record used to instantiate the stream invariant. -/
def hfSampleRow : HuggingFaceDataJobs.HFRow :=
  { job_posted_date := HuggingFaceDataJobs.HFCell.vDate 800000, job_title := none,
    job_skills := HuggingFaceDataJobs.HFSkills.vNone,
    job_title_short := some "Data Engineer".data, company_name := none,
    job_location := none, salary_year_avg := none }

/-- The canonical row the sample record normalizes to. -/
def hfSampleCanonical : RawJobRow :=
  { source_id := "huggingface_data_jobs", source_name := "Hugging Face data_jobs",
    job_title := none, job_description := none, company_name := none,
    location := none, posted_date := some 800000, job_url := none,
    skills := none, salary_info := none, ingested_at := 0 }


/-! ## Theorems -/

theorem isSubstrOf_iff (needle hay : List Char) :
    isSubstrOf needle hay = true ↔ needle <:+: hay := by
  unfold isSubstrOf
  rw [List.any_eq_true]
  constructor
  · rintro ⟨t, ht, hp⟩
    rw [ List.mem_tails] at ht
    rw [ List.isPrefixOf_iff_prefix] at hp
    exact List.infix_iff_prefix_suffix.mpr ⟨t, hp, ht⟩
  · intro h
    obtain ⟨t, hp, hs⟩ := List.infix_iff_prefix_suffix.mp h
    refine ⟨t, ?_, ?_⟩
    · rw [ List.mem_tails]
      exact hs
    · rw [ List.isPrefixOf_iff_prefix]
      exact hp

theorem not_infix_nil_of_ne_nil {l : List Char} (h : l ≠ []) : ¬ l <:+: [] := by
  intro hinf
  exact h (List.infix_nil.mp hinf)

theorem nil_not_mem_titles : ([] : List Char) ∉ DATA_DOMAIN_JOB_TITLES := by decide

theorem keywords_lower_ne_nil : ∀ kw ∈ DATA_DOMAIN_KEYWORDS, lowerStr kw ≠ [] := by decide

theorem isSubstrOf_nil_eq_false {n : List Char} (h : n ≠ []) : isSubstrOf n [] = false := by
  cases hn : isSubstrOf n [] with
  | false => rfl
  | true => exact absurd (List.infix_nil.mp ((isSubstrOf_iff n []).mp hn)) h

/-- `data_domain_only` rewritten as a disjunction of the label hit and the
keyword hit: the truthiness guards on the label and on the combined text do
not change the outcome, because the label table holds no empty string and
every keyword is non-empty. -/
theorem data_domain_only_eq (title description : Option (List Char))
    (skills : Option (List (List Char))) (label : Option (List Char)) :
    data_domain_only title description skills label =
      ((match label with
        | some s => DATA_DOMAIN_JOB_TITLES.contains (trimStr s)
        | none => false) ||
       DATA_DOMAIN_KEYWORDS.any
         (fun kw => isSubstrOf (lowerStr kw) (_combined_text title description skills))) := by
  have hnil : (DATA_DOMAIN_KEYWORDS.any fun kw => isSubstrOf (lowerStr kw) ([] : List Char)) = false := by
    decide
  have hcnil : DATA_DOMAIN_JOB_TITLES.contains ([] : List Char) = false := by decide
  unfold data_domain_only
  cases label with
  | none =>
    by_cases htext : (_combined_text title description skills).isEmpty
    · rw [List.isEmpty_iff] at htext
      simp [htext, hnil]
    · simp [htext]
  | some s =>
    by_cases hempty : (trimStr s).isEmpty
    · rw [List.isEmpty_iff] at hempty
      by_cases htext : (_combined_text title description skills).isEmpty
      · rw [List.isEmpty_iff] at htext
        simp [hempty, htext, hnil, nil_not_mem_titles]
      · simp [hempty, htext, nil_not_mem_titles]
    · by_cases hc : DATA_DOMAIN_JOB_TITLES.contains (trimStr s)
      · simp at hc
        simp only [List.isEmpty_iff] at hempty
        simp [hc, hempty]
      · rw [Bool.not_eq_true] at hc
        by_cases htext : (_combined_text title description skills).isEmpty
        · rw [List.isEmpty_iff] at htext
          simp [hempty, hc, htext, hnil]
        · simp [hempty, hc, htext]

/-- Claim C1: `last_3_years(D)` is true iff D is present and on or after the
cutoff, where the cutoff is the UTC process-start date minus 3*365 = 1095
days, a module-load constant (the function reads `CUTOFF_DATE`, not a
per-call clock); a missing date yields false. -/
theorem C1_last_3_years_iff :
    (∀ processStartUtc : Int, CUTOFF_DATE processStartUtc = processStartUtc - 1095)
    ∧ (∀ (processStartUtc : Int) (posted_date : Option Int),
        last_3_years processStartUtc posted_date = true ↔
          ∃ d, posted_date = some d ∧ CUTOFF_DATE processStartUtc ≤ d)
    ∧ (∀ processStartUtc : Int, last_3_years processStartUtc none = false) := by
  refine ⟨fun s => by unfold CUTOFF_DATE; ring, ?_, fun s => rfl⟩
  intro s pd
  cases pd with
  | none => simp [last_3_years]
  | some d => simp [last_3_years]

/-- Claim C2: `data_domain_only` returns true iff the trimmed
`job_title_short` exactly matches a `DATA_DOMAIN_JOB_TITLES` label, or the
lowercase space-joined concatenation of title, description and skills
contains some `DATA_DOMAIN_KEYWORDS` keyword (case-insensitively) as a
substring; with all four inputs empty or missing it returns false. -/
theorem C2_data_domain_only_iff :
    (∀ (title description : Option (List Char))
       (skills : Option (List (List Char))) (label : Option (List Char)),
      data_domain_only title description skills label = true ↔
        ((∃ s, label = some s ∧ trimStr s ∈ DATA_DOMAIN_JOB_TITLES) ∨
         (∃ kw ∈ DATA_DOMAIN_KEYWORDS,
            lowerStr kw <:+: _combined_text title description skills)))
    ∧ data_domain_only none none none none = false
    ∧ data_domain_only (some []) (some []) (some []) (some []) = false := by
  refine ⟨?_, by decide, by decide⟩
  intro title description skills label
  rw [data_domain_only_eq]
  rw [Bool.or_eq_true, List.any_eq_true]
  constructor
  · rintro (hl | ⟨kw, hkw, hsub⟩)
    · left
      cases label with
      | none => exact absurd hl (by simp)
      | some s =>
        refine ⟨s, rfl, ?_⟩
        simpa using hl
    · right
      exact ⟨kw, hkw, (isSubstrOf_iff _ _).mp hsub⟩
  · rintro (⟨s, rfl, hmem⟩ | ⟨kw, hkw, hsub⟩)
    · left
      simpa using hmem
    · right
      exact ⟨kw, hkw, (isSubstrOf_iff _ _).mpr hsub⟩

theorem charListLtB_cons (a b : Char) (as bs : List Char) :
    charListLtB (a :: as) (b :: bs) = true ↔
      (a.toNat < b.toNat ∨ (a.toNat = b.toNat ∧ charListLtB as bs = true)) := by
  simp only [charListLtB, charLtB]
  rcases Nat.lt_trichotomy a.toNat b.toNat with h | h | h
  · simp [h]
  · have h1 : ¬ a.toNat < b.toNat := by omega
    have h2 : ¬ b.toNat < a.toNat := by omega
    simp [h, h1, h2]
  · have h1 : ¬ a.toNat < b.toNat := by omega
    have h2 : a.toNat ≠ b.toNat := by omega
    simp [h, h1, h2]

theorem charListLtB_trans : ∀ x y z : List Char,
    charListLtB x y = true → charListLtB y z = true → charListLtB x z = true := by
  intro x
  induction x with
  | nil =>
    intro y z hxy hyz
    cases y with
    | nil => exact hyz
    | cons b bs =>
      cases z with
      | nil => simp [charListLtB] at hyz
      | cons c cs => rfl
  | cons a as ih =>
    intro y z hxy hyz
    cases y with
    | nil => simp [charListLtB] at hxy
    | cons b bs =>
      cases z with
      | nil => simp [charListLtB] at hyz
      | cons c cs =>
        rw [charListLtB_cons] at hxy hyz ⊢
        rcases hxy with hab | ⟨hab, hrec1⟩ <;> rcases hyz with hbc | ⟨hbc, hrec2⟩
        · exact Or.inl (by omega)
        · exact Or.inl (by omega)
        · exact Or.inl (by omega)
        · exact Or.inr ⟨by omega, ih bs cs hrec1 hrec2⟩

theorem charListLtB_total_of_ne : ∀ x y : List Char,
    x ≠ y → charListLtB x y = true ∨ charListLtB y x = true := by
  intro x
  induction x with
  | nil =>
    intro y hne
    cases y with
    | nil => exact absurd rfl hne
    | cons b bs => left; rfl
  | cons a as ih =>
    intro y hne
    cases y with
    | nil => right; rfl
    | cons b bs =>
      rcases Nat.lt_trichotomy a.toNat b.toNat with hlt | heq | hgt
      · left
        rw [charListLtB_cons]
        exact Or.inl hlt
      · have hab : a = b := Char.ext (UInt32.ext heq)
        subst hab
        have hne2 : as ≠ bs := fun h => hne (by rw [h])
        rcases ih bs hne2 with h | h
        · left
          rw [charListLtB_cons]
          exact Or.inr ⟨rfl, h⟩
        · right
          rw [charListLtB_cons]
          exact Or.inr ⟨rfl, h⟩
      · right
        rw [charListLtB_cons]
        exact Or.inl hgt

theorem strLtB_trans {a b c : String} (h₁ : strLtB a b = true)
    (h₂ : strLtB b c = true) : strLtB a c = true :=
  charListLtB_trans a.data b.data c.data h₁ h₂

theorem strLtB_total_of_ne {a b : String} (h : a ≠ b) :
    strLtB a b = true ∨ strLtB b a = true :=
  charListLtB_total_of_ne a.data b.data (fun hd => h (String.ext hd))

theorem mem_insertSortedDedup {x a : String} {l : List String} :
    x ∈ insertSortedDedup a l ↔ x = a ∨ x ∈ l := by
  induction l with
  | nil => simp [insertSortedDedup]
  | cons b bs ih =>
    by_cases hab : a = b
    · subst hab
      simp [insertSortedDedup]
    · by_cases hlt : strLtB a b
      · simp [insertSortedDedup, hab, hlt]
      · simp [insertSortedDedup, hab, hlt, ih]
        tauto

theorem pairwise_insertSortedDedup {a : String} {l : List String}
    (h : l.Pairwise (fun p q => strLtB p q = true)) :
    (insertSortedDedup a l).Pairwise (fun p q => strLtB p q = true) := by
  induction l with
  | nil => simp [insertSortedDedup]
  | cons b bs ih =>
    rw [List.pairwise_cons] at h
    obtain ⟨hb, hbs⟩ := h
    unfold insertSortedDedup
    by_cases hab : a = b
    · rw [if_pos hab]
      exact List.pairwise_cons.mpr ⟨hb, hbs⟩
    · rw [if_neg hab]
      by_cases hlt : strLtB a b
      · rw [if_pos hlt]
        refine List.pairwise_cons.mpr ⟨?_, List.pairwise_cons.mpr ⟨hb, hbs⟩⟩
        intro x hx
        rcases List.mem_cons.mp hx with rfl | hx'
        · exact hlt
        · exact strLtB_trans hlt (hb x hx')
      · rw [if_neg hlt]
        refine List.pairwise_cons.mpr ⟨?_, ih hbs⟩
        intro x hx
        rcases mem_insertSortedDedup.mp hx with rfl | hx'
        · rcases strLtB_total_of_ne hab with h | h
          · exact absurd h hlt
          · exact h
        · exact hb x hx'

theorem pairwise_pySortedSet (l : List String) :
    (pySortedSet l).Pairwise (fun p q => strLtB p q = true) := by
  suffices h : ∀ acc : List String, acc.Pairwise (fun p q => strLtB p q = true) →
      (l.foldl (fun acc a => insertSortedDedup a acc) acc).Pairwise
        (fun p q => strLtB p q = true) by
    exact h [] (by simp)
  induction l with
  | nil => intro acc hacc; exact hacc
  | cons x xs ih =>
    intro acc hacc
    simp only [List.foldl_cons]
    exact ih _ (pairwise_insertSortedDedup hacc)

/-- Claim C3: taxonomy extraction is deterministic, returns a strictly sorted
(by code-point order `strLtB`, hence duplicate-free) list of canonical names;
on the given title and description it returns exactly
`["Data Pipeline", "Python", "SQL", "Spark"]`, with `"apache spark"` and
`"spark"` both canonicalized to `"Spark"`. -/
theorem C3_extract_skills_taxonomy :
    extract_skills_taxonomy (some "Senior Data Engineer".data)
        (some "Must know Python, SQL, and Apache Spark for our data pipeline".data)
      = ["Data Pipeline", "Python", "SQL", "Spark"]
    ∧ (∀ title description,
        (extract_skills_taxonomy title description).Pairwise
          (fun p q => strLtB p q = true))
    ∧ aliasLookup (lowerStr "apache spark".data) = some "Spark"
    ∧ aliasLookup (lowerStr "spark".data) = some "Spark"
    ∧ (∀ title description,
        extract_skills_taxonomy title description =
          extract_skills_taxonomy title description) := by
  refine ⟨by decide, ?_, by decide, by decide, fun _ _ => rfl⟩
  intro title description
  unfold extract_skills_taxonomy
  by_cases hparts : ((match title with
     | some t => if (trimStr t).isEmpty then [] else [trimStr t]
     | none => []) ++
    (match description with
     | some d => if (trimStr d).isEmpty then [] else [trimStr d]
     | none => []) : List (List Char)).isEmpty
  · simp only [hparts, if_pos]
    simp
  · simp only [hparts, if_neg, Bool.not_eq_true]
    apply pairwise_pySortedSet

theorem getElem?_replicate_of_lt {n k : Nat} (hk : k < n) :
    (List.replicate n ([] : List (List Char)))[k]? = some [] := by
  simp [List.getElem?_replicate, hk]

/-- Claim C5: in batch LLM parsing, a record whose positional entry is absent
(response array shorter than the batch, or not an array at all) or not itself
an array gets `[]`, with no failure; concretely, a 3-record batch answered by
a 2-element array leaves index 2 with `[]`, and a 3-record batch answered by
`[["Python"], "not-a-list", ["SQL"]]` yields `[["Python"], [], ["SQL"]]`. -/
theorem C5_extract_skills_llm_batch :
    (∀ (j : Json) (n k : Nat), k < n →
        entryIsArr (positionalEntry j k) = false →
        (assignBatchResults j n)[k]? = some [])
    ∧ (let rows3 : List (Option (List Char) × Option (List Char)) :=
         [(some "t1".data, none), (some "t2".data, none), (some "t3".data, none)]
       let out := extract_skills_llm_batch rows3 (some "key".data) none none
         (fun _ => some (Json.jArr
           [Json.jArr [Json.jStr "Python".data], Json.jArr [Json.jStr "SQL".data]])) 10
       out.length = 3 ∧ out[2]? = some [])
    ∧ (let rows3 : List (Option (List Char) × Option (List Char)) :=
         [(some "t1".data, none), (some "t2".data, none), (some "t3".data, none)]
       extract_skills_llm_batch rows3 (some "key".data) none none
         (fun _ => some (Json.jArr
           [Json.jArr [Json.jStr "Python".data], Json.jStr "not-a-list".data,
            Json.jArr [Json.jStr "SQL".data]])) 10
         = [["Python".data], [], ["SQL".data]]) := by
  refine ⟨?_, by decide, by decide⟩
  intro j n k hk hent
  cases j with
  | jArr xs =>
    simp only [assignBatchResults]
    by_cases hlen : n ≤ xs.length
    · rw [if_pos hlen]
      rw [List.getElem?_map]
      rw [List.getElem?_range hk]
      simp only [Option.map_some']
      cases hx : xs[k]? with
      | none => simp
      | some e =>
        cases e <;> simp_all [entryIsArr, positionalEntry]
    · rw [if_neg hlen]
      exact getElem?_replicate_of_lt hk
  | jNull => exact getElem?_replicate_of_lt hk
  | jBool b => exact getElem?_replicate_of_lt hk
  | jNum m => exact getElem?_replicate_of_lt hk
  | jStr s => exact getElem?_replicate_of_lt hk

theorem C5_extract_skills_llm_batch_witness :
    (assignBatchResults Json.jNull 1)[0]? = some [] :=
  C5_extract_skills_llm_batch.1 Json.jNull 1 0 (by decide) (by decide)

/-- Claim C8: with no truthy API key resolvable (argument and both
environment variables), `extract_skills_llm` returns `[]` and
`extract_skills_llm_batch` returns one `[]` per input row, with no model
call and no failure. -/
theorem C8_llm_missing_key :
    (∀ title description argKey envGoogle envGemini respond,
        truthyOptStr (resolveApiKey argKey envGoogle envGemini) = false →
        extract_skills_llm title description argKey envGoogle envGemini respond = [])
    ∧ (∀ rows argKey envGoogle envGemini respondBatch batch_size,
        truthyOptStr (resolveApiKey argKey envGoogle envGemini) = false →
        extract_skills_llm_batch rows argKey envGoogle envGemini respondBatch
          batch_size = List.replicate rows.length [])
    ∧ resolveApiKey none none none = none := by
  refine ⟨?_, ?_, rfl⟩
  · intro t d a g m r h
    simp [extract_skills_llm, h]
  · intro rows a g m r bs h
    simp [extract_skills_llm_batch, h]

theorem C8_llm_missing_key_witness :
    extract_skills_llm none none none none none (fun _ _ => none) = []
    ∧ extract_skills_llm_batch [(none, none), (none, none)] none none none
        (fun _ => none) 10 = List.replicate 2 [] :=
  ⟨C8_llm_missing_key.1 none none none none none (fun _ _ => none) (by decide),
   C8_llm_missing_key.2.1 [(none, none), (none, none)] none none none
     (fun _ => none) 10 (by decide)⟩

namespace KaggleDataEngineer2023

theorem find?_append_of_some {α : Type} {p : α → Bool} {l₁ l₂ : List α} {a : α}
    (h : l₁.find? p = some a) : (l₁ ++ l₂).find? p = some a := by
  rw [List.find?_append, h]
  rfl

theorem applyRules_not_mem {vals : List String} {n : List Char} {slot : String}
    (h : applyRules vals n = some slot) : slot ∉ vals := by
  unfold applyRules at h
  cases hf : substringRules.find? (fun r => !vals.contains r.1 && r.2 n) with
  | none => rw [hf] at h; simp at h
  | some r =>
    rw [hf] at h
    simp only [Option.map_some'] at h
    have hpred := List.find?_some hf
    rw [Bool.and_eq_true] at hpred
    have hr1 : r.1 = slot := Option.some.inj h
    intro hmem
    have hcont : vals.contains r.1 = true := by
      rw [hr1]
      exact List.elem_eq_true_of_mem hmem
    rw [hcont] at hpred
    simp at hpred

theorem lookupCol_inferLoop_of_some :
    ∀ (cols : List (List Char)) (m : List (List Char × String))
      (vals : List String) (c : List Char) (canon : String),
      lookupCol m c = some canon →
      lookupCol (inferLoop cols m vals) c = some canon := by
  intro cols
  induction cols with
  | nil => intro m vals c canon h; exact h
  | cons x xs ih =>
    intro m vals c canon h
    unfold inferLoop
    by_cases hx : (m.find? (fun p => p.1 == x)).isSome
    · rw [if_pos hx]
      exact ih _ _ _ _ h
    · rw [if_neg hx]
      cases happ : applyRules vals (_norm_col x) with
      | none => exact ih _ _ _ _ h
      | some slot =>
        apply ih
        unfold lookupCol at h ⊢
        cases hf : m.find? (fun p => p.1 == c) with
        | none => rw [hf] at h; simp at h
        | some pr =>
          rw [find?_append_of_some hf]
          rw [hf] at h
          exact h

theorem inferLoop_new_pairs :
    ∀ (cols : List (List Char)) (m : List (List Char × String))
      (vals vals0 : List String),
      (∀ v ∈ vals0, v ∈ vals) →
      ∀ p ∈ inferLoop cols m vals, p ∈ m ∨ p.2 ∉ vals0 := by
  intro cols
  induction cols with
  | nil => intro m vals vals0 _ p hp; exact Or.inl hp
  | cons c cs ih =>
    intro m vals vals0 hsub p hp
    unfold inferLoop at hp
    by_cases hc : (m.find? (fun q => q.1 == c)).isSome
    · rw [if_pos hc] at hp
      exact ih _ _ _ hsub p hp
    · rw [if_neg hc] at hp
      cases happ : applyRules vals (_norm_col c) with
      | none =>
        rw [happ] at hp
        exact ih _ _ _ hsub p hp
      | some slot =>
        rw [happ] at hp
        have hsub2 : ∀ v ∈ vals0, v ∈ vals ++ [slot] :=
          fun v hv => List.mem_append_left _ (hsub v hv)
        rcases ih (m ++ [(c, slot)]) (vals ++ [slot]) vals0 hsub2 p hp with hmem | hnot
        · rcases List.mem_append.mp hmem with hm | hsingle
          · exact Or.inl hm
          · have hpc : p = (c, slot) := by simpa using hsingle
            subst hpc
            right
            intro hv0
            exact applyRules_not_mem happ (hsub slot hv0)
        · exact Or.inr hnot

/-- Claim C4 counterexample: for columns `["Job_details", "office_location"]`
the exact table matches (`Job_details` maps to `job_title`, so
`_normalize_columns` is non-empty and holds no entry for `office_location`),
yet the stream's substring step still maps `office_location` to `location` —
the substring-inference step is applied even though the exact table matched. -/
theorem C4_counterexample :
    (_normalize_columns ["Job_details".data, "office_location".data]).isEmpty = false
    ∧ lookupCol (_normalize_columns ["Job_details".data, "office_location".data])
        "office_location".data = none
    ∧ lookupCol (streamColumnMap ["Job_details".data, "office_location".data])
        "office_location".data = some "location" := by
  decide

/-- Claim C4 (amended): the substring-inference step does run after a
successful exact match, but it can neither remap a column the exact table
mapped (exact lookups survive unchanged) nor claim a canonical slot the
exact table already assigned: every stream-map entry is either an exact
entry or targets a slot outside the exact map's values. -/
theorem C4_exact_map_precedence (cols : List (List Char)) :
    (∀ c canon, lookupCol (_normalize_columns cols) c = some canon →
        lookupCol (streamColumnMap cols) c = some canon)
    ∧ (∀ p ∈ streamColumnMap cols,
        p ∈ _normalize_columns cols ∨
          p.2 ∉ (_normalize_columns cols).map Prod.snd) := by
  constructor
  · intro c canon h
    exact lookupCol_inferLoop_of_some cols _ _ c canon h
  · intro p hp
    have hsub : ∀ v ∈ (_normalize_columns cols).map Prod.snd,
        v ∈ (_normalize_columns cols).map Prod.snd := fun v hv => hv
    exact inferLoop_new_pairs cols _ _ _ hsub p hp

theorem C4_exact_map_precedence_witness :
    lookupCol (streamColumnMap ["Job_details".data, "office_location".data])
      "Job_details".data = some "job_title" :=
  (C4_exact_map_precedence ["Job_details".data, "office_location".data]).1
    "Job_details".data "job_title" (by decide)

/-- Claim C6 counterexample: a row whose title is available (`"Chef"`) and
fails `data_domain_only` is still emitted by the normalizer (at a process
start where the default posted date passes the recency gate): the domain
filter is not applied even though a keyword-matchable field is available. -/
theorem C6_counterexample :
    (_row_to_canonical 738611 0
        (fun c => if c == "Job_details".data then some "Chef".data else none)
        _EXACT_COLUMN_MAP).map RawJobRow.job_title = some (some "Chef".data)
    ∧ data_domain_only (some "Chef".data) none none none = false
    ∧ last_3_years 738611 (some DEFAULT_POSTED_DATE) = true := by
  decide

/-- Claim C6 (amended): the Kaggle data-engineer 2023 normalizer skips the
domain filter unconditionally — for every row (whatever its title and
description) the outcome depends only on whether the fixed default posted
date passes the recency gate. -/
theorem C6_domain_filter_skip_unconditional (processStartUtc now : Int)
    (row : List Char → Option (List Char)) (col_map : List (List Char × String)) :
    (_row_to_canonical processStartUtc now row col_map).isSome =
      last_3_years processStartUtc (some DEFAULT_POSTED_DATE) := by
  unfold _row_to_canonical
  cases h : last_3_years processStartUtc (some DEFAULT_POSTED_DATE) <;> simp [h]

end KaggleDataEngineer2023

theorem last_3_years_eq_true {s : Int} {pd : Option Int} :
    last_3_years s pd = true ↔ ∃ d, pd = some d ∧ CUTOFF_DATE s ≤ d := by
  cases pd <;> simp [last_3_years]

/-- Claim C7: both normalizers that take per-row dates apply the recency
filter first: whenever the resolved posted date fails `last_3_years`, the
result is `none` for every row — whatever its title, description, skills or
other fields, so the domain filter can play no part. -/
theorem C7_recency_before_domain :
    (∀ (processStartUtc now : Int) (pdParse : KaggleLinkedin2024.CellVal → Option Int)
       (row : List Char → KaggleLinkedin2024.CellVal)
       (col_map : List (List Char × String)),
       last_3_years processStartUtc
           (some (KaggleLinkedin2024.resolvePosted pdParse col_map row)) = false →
       KaggleLinkedin2024._row_to_canonical processStartUtc now pdParse row col_map
         = none)
    ∧ (∀ (processStartUtc now : Int) (isoParse : List Char → Option Int)
        (r : HuggingFaceDataJobs.HFRow),
        last_3_years processStartUtc
            (HuggingFaceDataJobs._parse_date isoParse r.job_posted_date) = false →
        HuggingFaceDataJobs._row_to_canonical processStartUtc now isoParse r
          = none) := by
  constructor
  · intro s n pp row cm h
    unfold KaggleLinkedin2024._row_to_canonical
    simp [h]
  · intro s n ip r h
    unfold HuggingFaceDataJobs._row_to_canonical
    simp [h]

theorem C7_recency_before_domain_witness :
    KaggleLinkedin2024._row_to_canonical 1000000000 0 (fun _ => none)
        (fun _ => KaggleLinkedin2024.CellVal.vMissing) [] = none
    ∧ HuggingFaceDataJobs._row_to_canonical 0 0 (fun _ => none)
        { job_posted_date := HuggingFaceDataJobs.HFCell.vNone, job_title := none,
          job_skills := HuggingFaceDataJobs.HFSkills.vNone, job_title_short := none,
          company_name := none, job_location := none, salary_year_avg := none }
      = none :=
  ⟨C7_recency_before_domain.1 1000000000 0 (fun _ => none)
      (fun _ => KaggleLinkedin2024.CellVal.vMissing) [] (by decide),
   C7_recency_before_domain.2 0 0 (fun _ => none)
      { job_posted_date := HuggingFaceDataJobs.HFCell.vNone, job_title := none,
        job_skills := HuggingFaceDataJobs.HFSkills.vNone, job_title_short := none,
        company_name := none, job_location := none, salary_year_avg := none }
      (by decide)⟩

theorem toPipe_eq_pipe (c : Char) : (toPipe c == '|') = isSkillDelim c := by
  unfold toPipe isSkillDelim
  by_cases h1 : c = ';'
  · subst h1; rfl
  · by_cases h2 : c = ','
    · subst h2; rfl
    · by_cases h3 : c = '|'
      · subst h3; rfl
      · have e1 : (c == ';') = false := by simp [h1]
        have e2 : (c == ',') = false := by simp [h2]
        have e3 : (c == '|') = false := by simp [h3]
        simp [e1, e2, e3]

theorem toPipe_eq_self {c : Char} (h : isSkillDelim c = false) : toPipe c = c := by
  unfold isSkillDelim at h
  rw [Bool.or_eq_false_iff, Bool.or_eq_false_iff] at h
  unfold toPipe
  simp [h.1.1, h.2]

theorem splitOnChar_map_toPipe (s : List Char) :
    splitOnChar '|' (s.map toPipe) = splitOnPred isSkillDelim s := by
  unfold splitOnChar
  induction s with
  | nil => rfl
  | cons c cs ih =>
    simp only [List.map_cons]
    by_cases hd : isSkillDelim c
    · have hp : (toPipe c == '|') = true := by rw [toPipe_eq_pipe]; exact hd
      simp only [splitOnPred, hp, hd, if_true, ih]
    · rw [Bool.not_eq_true] at hd
      have hp : (toPipe c == '|') = false := by rw [toPipe_eq_pipe]; exact hd
      have hc : toPipe c = c := toPipe_eq_self hd
      have hcp : (c == '|') = false := by rw [← hc]; exact hp
      simp only [splitOnPred, hp, hd, Bool.false_eq_true, if_false, hc, hcp, ih]

/-- Claim C9: the skills normalizer keeps a list as is (elements already
strings); splits a delimited string at every `;`, `|` or `,`, stripping parts
and dropping falsy parts; wraps a non-blank undelimited string as a
singleton; and yields nothing for blank or missing values. -/
theorem C9_skills_to_list :
    (∀ xs, KaggleLinkedin2024._skills_to_list
        (KaggleLinkedin2024.CellVal.vList xs) = some xs)
    ∧ (∀ s, (charIn ';' s || charIn '|' s || charIn ',' s) = true →
        KaggleLinkedin2024._skills_to_list (KaggleLinkedin2024.CellVal.vStr s) =
          some (((splitOnPred isSkillDelim s).filter
              (fun x => !x.isEmpty && !(trimStr x).isEmpty)).map trimStr))
    ∧ (∀ s, (charIn ';' s || charIn '|' s || charIn ',' s) = false →
        trimStr s ≠ [] →
        KaggleLinkedin2024._skills_to_list (KaggleLinkedin2024.CellVal.vStr s) =
          some [trimStr s])
    ∧ (∀ s, (charIn ';' s || charIn '|' s || charIn ',' s) = false →
        trimStr s = [] →
        KaggleLinkedin2024._skills_to_list (KaggleLinkedin2024.CellVal.vStr s) =
          none)
    ∧ KaggleLinkedin2024._skills_to_list KaggleLinkedin2024.CellVal.vMissing = none
    ∧ KaggleLinkedin2024._skills_to_list KaggleLinkedin2024.CellVal.vNaN = none := by
  refine ⟨fun xs => rfl, ?_, ?_, ?_, rfl, rfl⟩
  · intro s h
    show (if (charIn ';' s || charIn '|' s || charIn ',' s) = true then _
          else if (trimStr s).isEmpty = true then none else some [trimStr s]) = _
    rw [if_pos h, splitOnChar_map_toPipe]
  · intro s h ht
    show (if (charIn ';' s || charIn '|' s || charIn ',' s) = true then _
          else if (trimStr s).isEmpty = true then none else some [trimStr s]) = _
    rw [if_neg (by simp [h]), if_neg (by simpa using ht)]
  · intro s h ht
    show (if (charIn ';' s || charIn '|' s || charIn ',' s) = true then _
          else if (trimStr s).isEmpty = true then none else some [trimStr s]) = _
    rw [if_neg (by simp [h]), if_pos (by simpa using ht)]

theorem C9_skills_to_list_witness :
    KaggleLinkedin2024._skills_to_list
        (KaggleLinkedin2024.CellVal.vStr "a; b,,sql ".data) =
      some ["a".data, "b".data, "sql".data]
    ∧ KaggleLinkedin2024._skills_to_list
        (KaggleLinkedin2024.CellVal.vStr " python ".data) = some ["python".data]
    ∧ KaggleLinkedin2024._skills_to_list
        (KaggleLinkedin2024.CellVal.vStr "  ".data) = none := by
  refine ⟨?_, ?_, ?_⟩
  · rw [C9_skills_to_list.2.1 "a; b,,sql ".data (by decide)]
    decide
  · rw [C9_skills_to_list.2.2.1 " python ".data (by decide) (by decide)]
    decide
  · exact C9_skills_to_list.2.2.2.1 "  ".data (by decide) (by decide)

theorem batchStep_pred {α : Type} (P : α → Prop) (n : Nat)
    (acc : List (List α) × List α) (x : α)
    (h1 : ∀ b ∈ acc.1, ∀ r ∈ b, P r) (h2 : ∀ r ∈ acc.2, P r) (hx : P x) :
    (∀ b ∈ (batchStep n acc x).1, ∀ r ∈ b, P r)
    ∧ (∀ r ∈ (batchStep n acc x).2, P r) := by
  unfold batchStep
  by_cases hlen : n ≤ (acc.2 ++ [x]).length
  · simp only [if_pos hlen]
    constructor
    · intro b hb r hr
      rcases List.mem_append.mp hb with hb' | hb'
      · exact h1 b hb' r hr
      · have hbx : b = acc.2 ++ [x] := by simpa using hb'
        subst hbx
        rcases List.mem_append.mp hr with h | h
        · exact h2 r h
        · have hrx : r = x := by simpa using h
          subst hrx
          exact hx
    · intro r hr
      simp at hr
  · simp only [if_neg hlen]
    refine ⟨h1, ?_⟩
    intro r hr
    rcases List.mem_append.mp hr with h | h
    · exact h2 r h
    · have hrx : r = x := by simpa using h
      subst hrx
      exact hx

theorem batchLoop_foldl_pred {α : Type} (P : α → Prop) (n : Nat) :
    ∀ (rows : List α) (acc : List (List α) × List α),
      (∀ b ∈ acc.1, ∀ r ∈ b, P r) → (∀ r ∈ acc.2, P r) →
      (∀ r ∈ rows, P r) →
      (∀ b ∈ (rows.foldl (batchStep n) acc).1, ∀ r ∈ b, P r)
      ∧ (∀ r ∈ (rows.foldl (batchStep n) acc).2, P r) := by
  intro rows
  induction rows with
  | nil =>
    intro acc h1 h2 _
    exact ⟨h1, h2⟩
  | cons x xs ih =>
    intro acc h1 h2 h3
    simp only [List.foldl_cons]
    have hx : P x := h3 x (List.mem_cons_self x xs)
    have hstep := batchStep_pred P n acc x h1 h2 hx
    exact ih _ hstep.1 hstep.2 (fun r hr => h3 r (List.mem_cons_of_mem x hr))

theorem batchLoop_pred {α : Type} (P : α → Prop) (n : Nat) (rows : List α)
    (h : ∀ r ∈ rows, P r) : ∀ b ∈ batchLoop n rows, ∀ r ∈ b, P r := by
  unfold batchLoop
  have hmain := batchLoop_foldl_pred P n rows ([], []) (by simp) (by simp) h
  by_cases he : (rows.foldl (batchStep n) ([], [])).2.isEmpty
  · simp only [if_pos he]
    exact hmain.1
  · simp only [if_neg he]
    intro b hb r hr
    rcases List.mem_append.mp hb with hb' | hb'
    · exact hmain.1 b hb' r hr
    · have hbe : b = (rows.foldl (batchStep n) ([], [])).2 := by simpa using hb'
      subst hbe
      exact hmain.2 r hr

theorem de_some_posted {s n : Int} {row : List Char → Option (List Char)}
    {cm : List (List Char × String)} {r : RawJobRow}
    (h : KaggleDataEngineer2023._row_to_canonical s n row cm = some r) :
    ∃ d, r.posted_date = some d ∧ CUTOFF_DATE s ≤ d := by
  unfold KaggleDataEngineer2023._row_to_canonical at h
  cases hl : last_3_years s (some KaggleDataEngineer2023.DEFAULT_POSTED_DATE) with
  | false => simp [hl] at h
  | true =>
    simp only [hl, Bool.not_true, Bool.false_eq_true, if_false,
      Option.some.injEq] at h
    obtain ⟨d, hd, hle⟩ := last_3_years_eq_true.mp hl
    obtain rfl := Option.some.inj hd
    refine ⟨KaggleDataEngineer2023.DEFAULT_POSTED_DATE, ?_, hle⟩
    rw [← h]

theorem linkedin_some_posted {s n : Int}
    {pp : KaggleLinkedin2024.CellVal → Option Int}
    {row : List Char → KaggleLinkedin2024.CellVal}
    {cm : List (List Char × String)} {r : RawJobRow}
    (h : KaggleLinkedin2024._row_to_canonical s n pp row cm = some r) :
    ∃ d, r.posted_date = some d ∧ CUTOFF_DATE s ≤ d := by
  unfold KaggleLinkedin2024._row_to_canonical at h
  cases hl : last_3_years s (some (KaggleLinkedin2024.resolvePosted pp cm row)) with
  | false => simp [hl] at h
  | true =>
    simp only [hl, Bool.not_true, Bool.false_eq_true, if_false] at h
    obtain ⟨d, hd, hle⟩ := last_3_years_eq_true.mp hl
    obtain rfl := Option.some.inj hd
    cases hdo : data_domain_only (KaggleLinkedin2024.collectTDS row cm).title
        (KaggleLinkedin2024.collectTDS row cm).desc
        (KaggleLinkedin2024.collectTDS row cm).skills none with
    | false => simp [hdo] at h
    | true =>
      simp only [hdo, Bool.not_true, Bool.false_eq_true, if_false,
        Option.some.injEq] at h
      refine ⟨KaggleLinkedin2024.resolvePosted pp cm row, ?_, hle⟩
      rw [← h]

theorem hf_some_posted {s n : Int} {ip : List Char → Option Int}
    {hr : HuggingFaceDataJobs.HFRow} {r : RawJobRow}
    (h : HuggingFaceDataJobs._row_to_canonical s n ip hr = some r) :
    ∃ d, r.posted_date = some d ∧ CUTOFF_DATE s ≤ d := by
  unfold HuggingFaceDataJobs._row_to_canonical at h
  cases hl : last_3_years s (HuggingFaceDataJobs._parse_date ip hr.job_posted_date) with
  | false => simp [hl] at h
  | true =>
    simp only [hl, Bool.not_true, Bool.false_eq_true, if_false] at h
    obtain ⟨d, hd, hle⟩ := last_3_years_eq_true.mp hl
    cases hdo : data_domain_only hr.job_title none
        (HuggingFaceDataJobs._skills_list hr.job_skills) hr.job_title_short with
    | false => simp [hdo] at h
    | true =>
      simp only [hdo, Bool.not_true, Bool.false_eq_true, if_false,
        Option.some.injEq] at h
      refine ⟨d, ?_, hle⟩
      rw [← h]
      rw [hd]

/-- Claim C10 (implicit invariant): every canonical row emitted into any
batch by any of the three streaming readers has a present `posted_date` on or
after `CUTOFF_DATE` — a missing or pre-cutoff date never reaches a yielded
batch, including the sources using a fixed per-source default date. -/
theorem C10_stream_posted_date_invariant :
    (∀ (processStartUtc now : Int) (cols : List (List Char))
       (rows : List (List Char → Option (List Char))) (batch_size : Nat),
       ∀ b ∈ KaggleDataEngineer2023.stream_kaggle_data_engineer_2023
           processStartUtc now cols rows batch_size,
       ∀ r ∈ b, ∃ d, r.posted_date = some d ∧ CUTOFF_DATE processStartUtc ≤ d)
    ∧ (∀ (processStartUtc now : Int)
        (pdParse : KaggleLinkedin2024.CellVal → Option Int)
        (cols : List (List Char)) (rows : List (List Char → KaggleLinkedin2024.CellVal))
        (batch_size : Nat),
        ∀ b ∈ KaggleLinkedin2024.stream_kaggle_linkedin_jobs_skills_2024
            processStartUtc now pdParse cols rows batch_size,
        ∀ r ∈ b, ∃ d, r.posted_date = some d ∧ CUTOFF_DATE processStartUtc ≤ d)
    ∧ (∀ (processStartUtc now : Int) (isoParse : List Char → Option Int)
        (rows : List HuggingFaceDataJobs.HFRow) (batch_size : Nat),
        ∀ b ∈ HuggingFaceDataJobs.stream_huggingface_data_jobs
            processStartUtc now isoParse rows batch_size,
        ∀ r ∈ b, ∃ d, r.posted_date = some d ∧ CUTOFF_DATE processStartUtc ≤ d) := by
  refine ⟨?_, ?_, ?_⟩
  · intro s now cols rows bs
    unfold KaggleDataEngineer2023.stream_kaggle_data_engineer_2023
    refine batchLoop_pred _ bs _ ?_
    intro r hr
    rcases List.mem_filterMap.mp hr with ⟨row, _, hsome⟩
    exact de_some_posted hsome
  · intro s now pp cols rows bs
    unfold KaggleLinkedin2024.stream_kaggle_linkedin_jobs_skills_2024
    refine batchLoop_pred _ bs _ ?_
    intro r hr
    rcases List.mem_filterMap.mp hr with ⟨row, _, hsome⟩
    exact linkedin_some_posted hsome
  · intro s now ip rows bs
    unfold HuggingFaceDataJobs.stream_huggingface_data_jobs
    refine batchLoop_pred _ bs _ ?_
    intro r hr
    rcases List.mem_filterMap.mp hr with ⟨row, _, hsome⟩
    exact hf_some_posted hsome

theorem C10_stream_posted_date_invariant_witness :
    ∃ d, hfSampleCanonical.posted_date = some d ∧ CUTOFF_DATE 800000 ≤ d :=
  C10_stream_posted_date_invariant.2.2 800000 0 (fun _ => none) [hfSampleRow] 10
    [hfSampleCanonical] (by decide) hfSampleCanonical (by decide)

end Horizon
